import Mathlib

/-!
Shallow embedding of the HackerNews bulk-extraction engine
(`src/hackernews/data_puller.py`, `src/hackernews/client.py`,
`src/hackernews/models.py`) and proofs of the specification's testable
properties about it.

Modelling conventions:
* Python dict items are modelled by the `Item` structure; a key being
  absent from the dict (`'time' in item` tests) is modelled by the
  corresponding field being `none`.
* The network is modelled by oracles `fetchItem : Nat → Option Item`
  and `fetchUser : String → Option User` giving the result of the
  engine's `pull_single_item` / `pull_single_user` calls (`none` =
  absent or failed, exactly as those wrappers return `None`).
* `get_max_item_id` is modelled by `Env.maxId : Option Nat` (`none` =
  bootstrap failure, the case `pull_items` tests with `is None`).
* Output JSONL files are modelled by `Option (List _)`: `none` means
  the file does not exist, `some l` means it exists with lines `l`.
* `datetime.now()` is the abstract `Env.now : Int` (Unix seconds);
  `timedelta(days=n_months * 30)` is `n_months * 30 * 86400` seconds.
* The engine's `while` loop is embedded with a fuel argument; the top
  call supplies fuel `maxId`, which suffices because the cursor starts
  at `maxId` and strictly decreases by `batch_size ≥ 1` per iteration
  (the Python code crashes on `batch_size = 0`, so runs with
  `batch_size ≥ 1` are the only completed runs).
* `batch_usernames` is a Python `set` built by successive `add` calls;
  it is embedded as a duplicate-free list in discovery order (each name
  is added at most once because `collected_usernames` is checked and
  extended at the same time).
-/

namespace HNPull

/-- A HackerNews item record, mirroring the fields of
`models.Item` / the JSON dict the engine manipulates.  Only `id` is
guaranteed present upstream; every other field is optional.  The field
`by_` renders the Python/JSON key `by` (a Lean keyword). -/
structure Item where
  id : Nat
  type : Option String := none
  by_ : Option String := none
  time : Option Int := none
  dead : Option Bool := none
  deleted : Option Bool := none
  text : Option String := none
  url : Option String := none
  score : Option Int := none
  title : Option String := none
  deriving DecidableEq

/-- A HackerNews user record, mirroring `models.User`. -/
structure User where
  id : String
  created : Option Int := none
  karma : Option Int := none
  about : Option String := none
  deriving DecidableEq

/-- The upstream world as the engine observes it through its client:
the answer to `get_max_item_id` (`none` on failure), the current clock,
and the per-call results of `pull_single_item` / `pull_single_user`. -/
structure Env where
  maxId : Option Nat
  now : Int
  fetchItem : Nat → Option Item
  fetchUser : String → Option User

/-- `descFrom a n` is the list `[a, a-1, ..., a-n+1]` (length `n`). -/
def descFrom (a : Nat) : Nat → List Nat
  | 0 => []
  | n + 1 => a :: descFrom (a - 1) n

/-- Python's `range(a, b, -1)`: the ids from `a` down to `b + 1`. -/
def descRange (a b : Nat) : List Nat :=
  descFrom a (a - b)

/-- The engine's cutoff test for one fetched id/result pair:
`cutoff_time is not None and 'time' in item and item['time'] < cutoff_time`. -/
def pairOld (cutoff : Option Int) (p : Nat × Option Item) : Bool :=
  match cutoff, p.2 with
  | some c, some it =>
    match it.time with
    | some t => decide (t < c)
    | none => false
  | _, _ => false

/-- The outcome of processing one fetched batch inside `pull_items`:
the emitted items in order, how many were emitted, the updated
`collected_usernames`, the batch's newly discovered usernames
(`batch_usernames`, in discovery order), and whether the cutoff
stop (`should_stop`) fired. -/
structure BatchResult where
  ems : List Item
  n : Nat
  coll : List String
  names : List String
  stopped : Bool
  deriving DecidableEq

/-- The body of `for item_id, item in zip(batch_ids, items)` in
`DataPuller.pull_items`: skip absent items, break on the first item
older than the cutoff (without emitting it), otherwise emit the item
and record its author if not already collected. -/
def processBatch (cutoff : Option Int) (coll : List String) :
    List (Nat × Option Item) → BatchResult
  | [] => ⟨[], 0, coll, [], false⟩
  | p :: rest =>
    match p.2 with
    | none => processBatch cutoff coll rest
    | some it =>
      if pairOld cutoff p then ⟨[], 0, coll, [], true⟩
      else
        match it.by_ with
        | some name =>
          if name ∈ coll then
            let r := processBatch cutoff coll rest
            ⟨it :: r.ems, r.n + 1, r.coll, r.names, r.stopped⟩
          else
            let r := processBatch cutoff (coll ++ [name]) rest
            ⟨it :: r.ems, r.n + 1, r.coll, name :: r.names, r.stopped⟩
        | none =>
          let r := processBatch cutoff coll rest
          ⟨it :: r.ems, r.n + 1, r.coll, r.names, r.stopped⟩

/-- The username-discovery part of the batch loop in isolation: fold
over the emitted items, returning the updated `collected_usernames`
and the newly discovered names in discovery order. -/
def discover (coll : List String) : List Item → List String × List String
  | [] => (coll, [])
  | it :: rest =>
    match it.by_ with
    | some name =>
      if name ∈ coll then discover coll rest
      else
        let r := discover (coll ++ [name]) rest
        (r.1, name :: r.2)
    | none => discover coll rest

/-- The items a batch emits: the present items of the longest prefix of
the batch containing no item older than the cutoff. -/
def emsOf (cutoff : Option Int) (pairs : List (Nat × Option Item)) : List Item :=
  (pairs.takeWhile (fun p => !pairOld cutoff p)).filterMap Prod.snd

/-- `max_items is not None and items_pulled >= max_items`. -/
def reachedLimit (maxItems : Option Nat) (pulled : Nat) : Bool :=
  match maxItems with
  | some m => decide (m ≤ pulled)
  | none => false

/-- The mutable state of one `pull_items` run: `items_pulled`, the
instance's `collected_usernames`, the lines appended so far to the two
output files, and two observation traces — the ids passed to
`pull_single_item` (in fetch order) and the usernames passed to
`save_user` (in call order). -/
structure LoopState where
  itemsPulled : Nat
  collected : List String
  itemLines : List Item
  userLines : List User
  considered : List Nat
  userAttempts : List String
  deriving DecidableEq

/-- The ids one iteration fetches: `batch_end = max(current_id -
batch_size + 1, 1)`, then `range(current_id, stop, -1)` where `stop`
is `batch_end - 1`, raised to `current_id - remaining` when an item
budget is set (`remaining = max_items - items_pulled`). -/
def batchIdsOf (bs : Nat) (maxItems : Option Nat) (currentId pulled : Nat) :
    List Nat :=
  let batchEnd := max (currentId - bs + 1) 1
  let stopAt : Nat :=
    match maxItems with
    | some m => max (batchEnd - 1) (currentId - (m - pulled))
    | none => batchEnd - 1
  descRange currentId stopAt

/-- The cursor after one iteration: `current_id = batch_end - 1`. -/
def nextCursor (bs currentId : Nat) : Nat :=
  max (currentId - bs + 1) 1 - 1

/-- One iteration of the `while` loop in `DataPuller.pull_items`
(fetch a batch concurrently, process it, fetch the batch's newly
discovered users): the updated run state, paired with the `should_stop`
flag. -/
def batchStep (env : Env) (bs : Nat) (maxItems : Option Nat) (cutoff : Option Int)
    (currentId : Nat) (st : LoopState) : LoopState × Bool :=
  let batchIds := batchIdsOf bs maxItems currentId st.itemsPulled
  let pairs := batchIds.map (fun i => (i, env.fetchItem i))
  let r := processBatch cutoff st.collected pairs
  ({ itemsPulled := st.itemsPulled + r.n
     collected := r.coll
     itemLines := st.itemLines ++ r.ems
     userLines := st.userLines ++ r.names.filterMap env.fetchUser
     considered := st.considered ++ batchIds
     userAttempts := st.userAttempts ++ r.names }, r.stopped)

/-- The `while not should_stop` loop of `DataPuller.pull_items`,
with fuel for termination (the cursor strictly decreases by
`batch_size ≥ 1` per iteration, so fuel `maxId` always suffices). -/
def pullLoop (env : Env) (bs : Nat) (maxItems : Option Nat) (cutoff : Option Int) :
    Nat → Nat → LoopState → LoopState
  | 0, _, st => st
  | fuel + 1, currentId, st =>
    if reachedLimit maxItems st.itemsPulled then st
    else
      let r := batchStep env bs maxItems cutoff currentId st
      let nextId := nextCursor bs currentId
      if r.2 then r.1
      else if nextId < 1 then r.1
      else if reachedLimit maxItems r.1.itemsPulled then r.1
      else pullLoop env bs maxItems cutoff fuel nextId r.1

/-- The cutoff timestamp `pull_items` computes:
`int((datetime.now() - timedelta(days=n_months*30)).timestamp())`. -/
def cutoffOf (now : Int) (nMonths : Option Nat) : Option Int :=
  nMonths.map (fun m => now - (m : Int) * 30 * 86400)

/-- What a `pull_items` run leaves behind: its return value, the final
contents of the two output files (`none` = file does not exist), the
engine instance's `collected_usernames` after the call, and the two
observation traces. -/
structure PullResult where
  itemsPulled : Nat
  itemFile : Option (List Item)
  userFile : Option (List User)
  collected : List String
  considered : List Nat
  userAttempts : List String
  deriving DecidableEq

/-- `DataPuller.pull_items`: obtain the max id (returning 0 at once on
failure, before the output files are touched), compute the optional
cutoff, truncate both output files, then run the batch loop from
`max_id`.  `coll0` is the instance's `collected_usernames` at call
time (`set()` for a fresh instance); `f0`, `g0` are the prior contents
of the two output files. -/
def pull_items (env : Env) (bs : Nat) (maxItems : Option Nat) (nMonths : Option Nat)
    (coll0 : List String) (f0 : Option (List Item)) (g0 : Option (List User)) :
    PullResult :=
  match env.maxId with
  | none =>
    { itemsPulled := 0, itemFile := f0, userFile := g0,
      collected := coll0, considered := [], userAttempts := [] }
  | some maxId =>
    let cutoff := cutoffOf env.now nMonths
    let st0 : LoopState :=
      { itemsPulled := 0, collected := coll0, itemLines := [],
        userLines := [], considered := [], userAttempts := [] }
    let stF := pullLoop env bs maxItems cutoff maxId maxId st0
    { itemsPulled := stF.itemsPulled,
      itemFile := some stF.itemLines,
      userFile := some stF.userLines,
      collected := stF.collected,
      considered := stF.considered,
      userAttempts := stF.userAttempts }

/-- The cutoff test applied at a considered id through the fetch
oracle (the id is "old" when fetching it yields an item whose time is
strictly below the cutoff). -/
def oldAt (fetch : Nat → Option Item) (cutoff : Option Int) (i : Nat) : Bool :=
  pairOld cutoff (i, fetch i)

/-!  The single-fetch client (`HackerNewsClient.get_item` /
`get_user`), modelled over the possible outcomes of one
`requests` round trip. -/

/-- Outcome of one HTTP round trip for a body decoding to `α`:
a 2xx response whose JSON body is `null` (`ok none`) or a record
(`ok (some _)`); a non-2xx status (`raise_for_status` raises
`HTTPError`); a timeout; a connection error; a body that is not valid
JSON (`response.json()` raises `ValueError`). -/
inductive HttpOutcome (α : Type)
  | ok (body : Option α)
  | httpError
  | timeout
  | connError
  | malformed
  deriving DecidableEq

/-- `HackerNewsClient.get_item`: the `try` block catches only
`requests.exceptions.HTTPError`; every other exception propagates.
`Except.error s` models an uncaught Python exception `s`. -/
def get_item (resp : HttpOutcome Item) : Except String (Option Item) :=
  match resp with
  | .ok body => .ok body
  | .httpError => .ok none
  | .timeout => .error "Timeout"
  | .connError => .error "ConnectionError"
  | .malformed => .error "JSONDecodeError"

/-- `HackerNewsClient.get_user`: same `try`/`except HTTPError` shape
as `get_item`. -/
def get_user (resp : HttpOutcome User) : Except String (Option User) :=
  match resp with
  | .ok body => .ok body
  | .httpError => .ok none
  | .timeout => .error "Timeout"
  | .connError => .error "ConnectionError"
  | .malformed => .error "JSONDecodeError"

/-- `DataPuller.pull_single_item`: wraps the item fetch in
`try ... except Exception: return None`, folding every failure to
absence. -/
def pull_single_item (resp : HttpOutcome Item) : Option Item :=
  match get_item resp with
  | .ok o => o
  | .error _ => none

/-- `DataPuller.pull_single_user`: wraps the user fetch in
`try ... except Exception: return None`. -/
def pull_single_user (resp : HttpOutcome User) : Option User :=
  match get_user resp with
  | .ok o => o
  | .error _ => none

/-- An item with its `dead`/`deleted` flags removed, for stating that
the engine's control flow never reads those flags. -/
def stripFlags (it : Item) : Item :=
  { it with dead := none, deleted := none }

/-- The items one iteration emits. -/
def batchEms (env : Env) (bs : Nat) (maxItems : Option Nat) (cutoff : Option Int)
    (cid pulled : Nat) : List Item :=
  emsOf cutoff ((batchIdsOf bs maxItems cid pulled).map fun i => (i, env.fetchItem i))

/-- A fetched pair with its flags stripped. -/
def stripPair (p : Nat × Option Item) : Nat × Option Item :=
  (p.1, p.2.map stripFlags)

/-- A run state with the flags stripped from its item lines. -/
def stripState (st : LoopState) : LoopState :=
  { st with itemLines := st.itemLines.map stripFlags }

/-! ### Concrete worlds used to evaluate the engine -/

/-- The present item at id `i`, carrying only its id. -/
def mkItem (i : Nat) : Item := { id := i }

/-- A concrete user profile. -/
def aliceUser : User := { id := "alice" }

/-- An arbitrary pre-existing output line. -/
def dummyItem : Item := { id := 42 }

/-- Max id 6; only ids 4 and 3 are present (both below the max id). -/
def envSparse : Env :=
  { maxId := some 6, now := 0,
    fetchItem := fun i => if i = 4 ∨ i = 3 then some (mkItem i) else none,
    fetchUser := fun _ => none }

/-- Max id 5; every id is present and carries its own id. -/
def envDense : Env :=
  { maxId := some 5, now := 0,
    fetchItem := fun i => some (mkItem i),
    fetchUser := fun _ => none }

/-- Max id 4, clock 2592100 (one-month cutoff 100); item times
150, 120, 50, 200 at ids 4, 3, 2, 1. -/
def envTimes : Env :=
  { maxId := some 4, now := 2592100,
    fetchItem := fun i =>
      if i = 4 then some { id := 4, time := some 150 }
      else if i = 3 then some { id := 3, time := some 120 }
      else if i = 2 then some { id := 2, time := some 50 }
      else if i = 1 then some { id := 1, time := some 200 }
      else none,
    fetchUser := fun _ => none }

/-- A world where `get_max_item_id` fails. -/
def envNoMax : Env :=
  { maxId := none, now := 0,
    fetchItem := fun _ => none,
    fetchUser := fun _ => none }

/-- Max id 1000, clock 2592100 (one-month cutoff 100); item 1000 is
older than the cutoff, item 999 is within it. -/
def envWindow : Env :=
  { maxId := some 1000, now := 2592100,
    fetchItem := fun i =>
      if i = 1000 then some { id := 1000, time := some 50 }
      else if i = 999 then some { id := 999, time := some 150 }
      else none,
    fetchUser := fun _ => none }

/-- Max id 10; every id is absent. -/
def envAbsent : Env :=
  { maxId := some 10, now := 0,
    fetchItem := fun _ => none,
    fetchUser := fun _ => none }

/-- Max id 1; item 1 is by alice, whose profile is present. -/
def envAlice : Env :=
  { maxId := some 1, now := 0,
    fetchItem := fun i => if i = 1 then some { id := 1, by_ := some "alice" } else none,
    fetchUser := fun n => if n = "alice" then some aliceUser else none }

/-- Max id 2; items 2 and 1 are both by alice, whose profile fetch
fails. -/
def envAliceDown : Env :=
  { maxId := some 2, now := 0,
    fetchItem := fun i =>
      if i = 2 ∨ i = 1 then some { id := i, by_ := some "alice" } else none,
    fetchUser := fun _ => none }

/-- Max id 2; item 2 is by alice and flagged dead and deleted. -/
def envFlagged : Env :=
  { maxId := some 2, now := 0,
    fetchItem := fun i =>
      if i = 2 then
        some { id := 2, by_ := some "alice", dead := some true, deleted := some true }
      else if i = 1 then some { id := 1 }
      else none,
    fetchUser := fun n => if n = "alice" then some aliceUser else none }

/-- `envFlagged` with the flags stripped from every item. -/
def envFlagless : Env :=
  { envFlagged with fetchItem := fun i => (envFlagged.fetchItem i).map stripFlags }

/-! ### Basic facts about `descFrom` / `descRange` -/

theorem descFrom_length (a n : Nat) : (descFrom a n).length = n := by
  induction n generalizing a with
  | zero => rfl
  | succ n ih => simp [descFrom, ih]

theorem mem_descFrom : ∀ {n a i : Nat}, n ≤ a →
    (i ∈ descFrom a n ↔ a - n < i ∧ i ≤ a)
  | 0, a, i, _ => by
    simp only [descFrom, List.not_mem_nil, false_iff]
    omega
  | n + 1, a, i, h => by
    have ih := mem_descFrom (n := n) (a := a - 1) (i := i) (by omega)
    simp only [descFrom, List.mem_cons, ih]
    omega

theorem descFrom_append (a n m : Nat) :
    descFrom a n ++ descFrom (a - n) m = descFrom a (n + m) := by
  induction n generalizing a with
  | zero => simp [descFrom]
  | succ n ih =>
    have : a - (n + 1) = a - 1 - n := by omega
    simp only [descFrom, List.cons_append, this, Nat.succ_add]
    rw [ih]

theorem descFrom_pairwise {a n : Nat} (hn : n ≤ a) :
    (descFrom a n).Pairwise (fun i j => j < i) := by
  induction n generalizing a with
  | zero => exact List.Pairwise.nil
  | succ n ih =>
    refine List.Pairwise.cons (fun j hj => ?_) (ih (a := a - 1) (by omega))
    have := (mem_descFrom (a := a - 1) (n := n) (by omega)).mp hj
    omega

theorem mem_descRange {a b : Nat} {i : Nat} :
    i ∈ descRange a b ↔ b < i ∧ i ≤ a ∨ a < i ∧ False := by
  constructor
  · intro h
    have := (mem_descFrom (a := a) (n := a - b) (by omega)).mp h
    omega
  · intro h
    rcases h with ⟨h1, h2⟩ | ⟨_, h⟩
    · exact (mem_descFrom (a := a) (n := a - b) (by omega)).mpr (by omega)
    · exact h.elim

theorem mem_descRange' {a b : Nat} {i : Nat} (hi : i ∈ descRange a b) :
    b < i ∧ i ≤ a := by
  have := (mem_descFrom (a := a) (n := a - b) (by omega)).mp hi
  omega

theorem descRange_length (a b : Nat) : (descRange a b).length = a - b :=
  descFrom_length a (a - b)

theorem descRange_append {a b c : Nat} (hc : c ≤ b) (hb : b ≤ a) :
    descRange a b ++ descRange b c = descRange a c := by
  unfold descRange
  have h : b = a - (a - b) := by omega
  calc descFrom a (a - b) ++ descFrom b (b - c)
      = descFrom a (a - b) ++ descFrom (a - (a - b)) (b - c) := by rw [← h]
    _ = descFrom a ((a - b) + (b - c)) := descFrom_append _ _ _
    _ = descFrom a (a - c) := by
        have : (a - b) + (b - c) = a - c := by omega
        rw [this]

theorem descRange_pairwise (a b : Nat) :
    (descRange a b).Pairwise (fun i j => j < i) :=
  descFrom_pairwise (by omega)

/-! ### Characterization of `processBatch` -/

theorem pairOld_none_snd (cutoff : Option Int) (i : Nat) :
    pairOld cutoff (i, none) = false := by
  cases cutoff <;> rfl

theorem pairOld_no_cutoff (p : Nat × Option Item) :
    pairOld none p = false := by
  rcases p with ⟨i, o⟩; cases o <;> rfl

/-- The batch loop, in closed form: it emits the present items of the
longest prefix with no too-old item, counts them, threads the username
discovery over exactly those items, and stops iff some pair in the
batch is too old. -/
theorem processBatch_eq (cutoff : Option Int) (coll : List String)
    (pairs : List (Nat × Option Item)) :
    processBatch cutoff coll pairs =
      ⟨emsOf cutoff pairs, (emsOf cutoff pairs).length,
        (discover coll (emsOf cutoff pairs)).1,
        (discover coll (emsOf cutoff pairs)).2,
        pairs.any (pairOld cutoff)⟩ := by
  induction pairs generalizing coll with
  | nil => rfl
  | cons p rest ih =>
    rcases p with ⟨i, o⟩
    cases o with
    | none =>
      simp [processBatch, emsOf, List.takeWhile, pairOld_none_snd, ih coll,
        List.any_cons]
    | some it =>
      by_cases hold : pairOld cutoff (i, some it) = true
      · simp [processBatch, hold, emsOf, List.takeWhile, discover, List.any_cons]
      · rw [Bool.not_eq_true] at hold
        cases hby : it.by_ with
        | none =>
          simp [processBatch, hold, hby, emsOf, List.takeWhile, discover,
            ih coll, List.any_cons]
        | some name =>
          by_cases hmem : name ∈ coll
          · simp [processBatch, hold, hby, hmem, emsOf, List.takeWhile,
              discover, ih coll, List.any_cons]
          · simp [processBatch, hold, hby, hmem, emsOf, List.takeWhile,
              discover, ih (coll ++ [name]), List.any_cons]

/-- `discover` appends exactly its newly discovered names to the set;
those names are duplicate-free and none was already in the set. -/
theorem discover_spec (coll : List String) (its : List Item) :
    (discover coll its).1 = coll ++ (discover coll its).2 ∧
      (discover coll its).2.Nodup ∧
      ∀ n ∈ (discover coll its).2, n ∉ coll := by
  induction its generalizing coll with
  | nil => simp [discover]
  | cons it rest ih =>
    cases hby : it.by_ with
    | none => simpa [discover, hby] using ih coll
    | some name =>
      by_cases hmem : name ∈ coll
      · simpa [discover, hby, hmem] using ih coll
      · obtain ⟨h1, h2, h3⟩ := ih (coll ++ [name])
        refine ⟨?_, ?_, ?_⟩
        · simp only [discover, hby, hmem, if_false]
          rw [h1]; simp
        · simp only [discover, hby, hmem, if_false]
          refine List.Pairwise.cons (fun m hm => ?_) h2
          intro hEq
          exact h3 m hm (by simp [hEq])
        · simp only [discover, hby, hmem, if_false]
          intro n hn
          rcases List.mem_cons.mp hn with rfl | hn'
          · exact hmem
          · intro hcol
            exact h3 n hn' (by simp [hcol])

/-! ### Loop-level invariants -/

/-- Any property of the run state that one batch iteration preserves
is preserved by the whole loop. -/
theorem pullLoop_preserves (env : Env) (bs : Nat) (maxItems : Option Nat)
    (cutoff : Option Int) (P : LoopState → Prop)
    (hstep : ∀ cid st, P st → P (batchStep env bs maxItems cutoff cid st).1) :
    ∀ fuel cid st, P st → P (pullLoop env bs maxItems cutoff fuel cid st) := by
  intro fuel
  induction fuel with
  | zero => intro cid st h; exact h
  | succ fuel ih =>
    intro cid st h
    simp only [pullLoop]
    by_cases h1 : reachedLimit maxItems st.itemsPulled
    · simpa [h1] using h
    · have hP' := hstep cid st h
      by_cases h2 : (batchStep env bs maxItems cutoff cid st).2
      · simpa [h1, h2] using hP'
      · by_cases h3 : nextCursor bs cid < 1
        · simpa [h1, h2, h3] using hP'
        · by_cases h4 :
            reachedLimit maxItems (batchStep env bs maxItems cutoff cid st).1.itemsPulled
          · simpa [h1, h2, h3, h4] using hP'
          · simpa [h1, h2, h3, h4] using ih (nextCursor bs cid) _ hP'

/-- For an id-consistent user oracle, the ids of the profiles a list of
names successfully fetches form a sublist of those names. -/
theorem user_ids_sublist (fetchUser : String → Option User)
    (hu : ∀ n u, fetchUser n = some u → u.id = n) :
    ∀ names : List String, ((names.filterMap fetchUser).map User.id).Sublist names
  | [] => by simp
  | n :: rest => by
    cases h : fetchUser n with
    | none =>
      simpa [h] using (user_ids_sublist fetchUser hu rest).cons n
    | some u =>
      simpa [h, hu n u h] using (user_ids_sublist fetchUser hu rest).cons₂ n

/-- One batch iteration preserves: the user lines have pairwise
distinct usernames, all of them already recorded in
`collected_usernames`.  (Id-consistency of the user oracle is the
upstream invariant that a profile fetched for `name` carries `name`.) -/
theorem step_user_nodup (env : Env) (bs : Nat) (maxItems : Option Nat)
    (cutoff : Option Int)
    (hu : ∀ n u, env.fetchUser n = some u → u.id = n) (cid : Nat) (st : LoopState)
    (h : (st.userLines.map User.id).Nodup ∧
      ∀ u ∈ st.userLines, u.id ∈ st.collected) :
    ((batchStep env bs maxItems cutoff cid st).1.userLines.map User.id).Nodup ∧
      ∀ u ∈ (batchStep env bs maxItems cutoff cid st).1.userLines,
        u.id ∈ (batchStep env bs maxItems cutoff cid st).1.collected := by
  obtain ⟨hnd, hmem⟩ := h
  simp only [batchStep, processBatch_eq]
  obtain ⟨hc, hndn, hnin⟩ :=
    discover_spec st.collected
      (emsOf cutoff ((batchIdsOf bs maxItems cid st.itemsPulled).map
        fun i => (i, env.fetchItem i)))
  constructor
  · rw [List.map_append, List.nodup_append]
    refine ⟨hnd, hndn.sublist (user_ids_sublist env.fetchUser hu _), ?_⟩
    intro a ha hb
    obtain ⟨u, hu1, hu2⟩ := List.mem_map.mp ha
    have haold : a ∈ st.collected := hu2 ▸ hmem u hu1
    exact hnin a ((user_ids_sublist env.fetchUser hu _).subset hb) haold
  · intro u hu'
    rw [hc]
    rcases List.mem_append.mp hu' with h1 | h2
    · exact List.mem_append_left _ (hmem u h1)
    · exact List.mem_append_right _
        ((user_ids_sublist env.fetchUser hu _).subset
          (List.mem_map_of_mem User.id h2))

/-- One batch iteration preserves: `collected_usernames` extends the
set the run started with, and no user fetch was attempted for a name
in that initial set. -/
theorem step_collected_extends (env : Env) (bs : Nat) (maxItems : Option Nat)
    (cutoff : Option Int) (coll0 : List String) (cid : Nat) (st : LoopState)
    (h : (∃ t, st.collected = coll0 ++ t) ∧
      ∀ n ∈ st.userAttempts, n ∉ coll0) :
    (∃ t, (batchStep env bs maxItems cutoff cid st).1.collected = coll0 ++ t) ∧
      ∀ n ∈ (batchStep env bs maxItems cutoff cid st).1.userAttempts, n ∉ coll0 := by
  obtain ⟨⟨t, ht⟩, hatt⟩ := h
  simp only [batchStep, processBatch_eq]
  obtain ⟨hc, hndn, hnin⟩ :=
    discover_spec st.collected
      (emsOf cutoff ((batchIdsOf bs maxItems cid st.itemsPulled).map
        fun i => (i, env.fetchItem i)))
  refine ⟨⟨t ++ (discover st.collected _).2, by rw [hc, ht, List.append_assoc]⟩, ?_⟩
  intro n hn
  rcases List.mem_append.mp hn with h1 | h2
  · exact hatt n h1
  · intro hn0
    exact hnin n h2 (ht ▸ List.mem_append_left t hn0)

/-- One batch iteration preserves: the attempted usernames are
pairwise distinct, every attempted name is in `collected_usernames`,
and the user output lines are exactly the successful fetches of the
attempted names, in order. -/
theorem step_attempts (env : Env) (bs : Nat) (maxItems : Option Nat)
    (cutoff : Option Int) (cid : Nat) (st : LoopState)
    (h : st.userAttempts.Nodup ∧
      (∀ n ∈ st.userAttempts, n ∈ st.collected) ∧
      st.userLines = st.userAttempts.filterMap env.fetchUser) :
    (batchStep env bs maxItems cutoff cid st).1.userAttempts.Nodup ∧
      (∀ n ∈ (batchStep env bs maxItems cutoff cid st).1.userAttempts,
        n ∈ (batchStep env bs maxItems cutoff cid st).1.collected) ∧
      (batchStep env bs maxItems cutoff cid st).1.userLines =
        (batchStep env bs maxItems cutoff cid st).1.userAttempts.filterMap
          env.fetchUser := by
  obtain ⟨hnd, hsub, hlines⟩ := h
  simp only [batchStep, processBatch_eq]
  obtain ⟨hc, hndn, hnin⟩ :=
    discover_spec st.collected
      (emsOf cutoff ((batchIdsOf bs maxItems cid st.itemsPulled).map
        fun i => (i, env.fetchItem i)))
  refine ⟨?_, ?_, ?_⟩
  · rw [List.nodup_append]
    exact ⟨hnd, hndn, fun a ha hb => hnin a hb (hsub a ha)⟩
  · intro n hn
    rw [hc]
    rcases List.mem_append.mp hn with h1 | h2
    · exact List.mem_append_left _ (hsub n h1)
    · exact List.mem_append_right _ h2
  · rw [hlines, List.filterMap_append]

/-! ### Component views of one batch iteration -/

theorem batchStep_considered (env : Env) (bs : Nat) (maxItems : Option Nat)
    (cutoff : Option Int) (cid : Nat) (st : LoopState) :
    (batchStep env bs maxItems cutoff cid st).1.considered =
      st.considered ++ batchIdsOf bs maxItems cid st.itemsPulled := by
  simp [batchStep]

theorem batchStep_itemLines (env : Env) (bs : Nat) (maxItems : Option Nat)
    (cutoff : Option Int) (cid : Nat) (st : LoopState) :
    (batchStep env bs maxItems cutoff cid st).1.itemLines =
      st.itemLines ++ batchEms env bs maxItems cutoff cid st.itemsPulled := by
  simp [batchStep, processBatch_eq, batchEms]

theorem batchStep_pulled (env : Env) (bs : Nat) (maxItems : Option Nat)
    (cutoff : Option Int) (cid : Nat) (st : LoopState) :
    (batchStep env bs maxItems cutoff cid st).1.itemsPulled =
      st.itemsPulled + (batchEms env bs maxItems cutoff cid st.itemsPulled).length := by
  simp [batchStep, processBatch_eq, batchEms]

theorem batchStep_stopped (env : Env) (bs : Nat) (maxItems : Option Nat)
    (cutoff : Option Int) (cid : Nat) (st : LoopState) :
    (batchStep env bs maxItems cutoff cid st).2 =
      (batchIdsOf bs maxItems cid st.itemsPulled).any
        (oldAt env.fetchItem cutoff) := by
  simp only [batchStep, processBatch_eq]
  induction batchIdsOf bs maxItems cid st.itemsPulled with
  | nil => rfl
  | cons i l ih => simp only [List.map_cons, List.any_cons, ih]; rfl

/-- `emsOf` over the fetched pairs of an id list, as a take-while over
the ids themselves. -/
theorem batchEms_eq_ids (env : Env) (bs : Nat) (maxItems : Option Nat)
    (cutoff : Option Int) (cid pulled : Nat) :
    batchEms env bs maxItems cutoff cid pulled =
      ((batchIdsOf bs maxItems cid pulled).takeWhile
        (fun i => !oldAt env.fetchItem cutoff i)).filterMap env.fetchItem := by
  unfold batchEms emsOf
  rw [List.takeWhile_map, List.filterMap_map]
  rfl

theorem takeWhile_all {α : Type} (p : α → Bool) :
    ∀ (l : List α), (∀ x ∈ l, p x = true) → l.takeWhile p = l
  | [], _ => rfl
  | x :: l, h => by
    have hx := h x (List.mem_cons_self x l)
    simp [List.takeWhile_cons, hx, takeWhile_all p l (fun y hy => h y (List.mem_cons_of_mem x hy))]

theorem takeWhile_append_all {α : Type} (p : α → Bool) (l₁ l₂ : List α)
    (h : ∀ x ∈ l₁, p x = true) :
    (l₁ ++ l₂).takeWhile p = l₁ ++ l₂.takeWhile p := by
  induction l₁ with
  | nil => simp
  | cons x l ih =>
    have hx := h x (List.mem_cons_self x l)
    simp [List.takeWhile_cons, hx,
      ih (fun y hy => h y (List.mem_cons_of_mem x hy))]

/-- When no considered id is old, the take-while over the considered
ids is the whole list, so the characterization of the item lines holds
outright. -/
theorem lines_char_of_inv (env : Env) (cutoff : Option Int) (st : LoopState)
    (h1 : st.itemLines = st.considered.filterMap env.fetchItem)
    (h2 : ∀ i ∈ st.considered, oldAt env.fetchItem cutoff i = false) :
    st.itemLines =
      (st.considered.takeWhile
        (fun i => !oldAt env.fetchItem cutoff i)).filterMap env.fetchItem := by
  rw [takeWhile_all _ _ (fun i hi => by simp [h2 i hi])]
  exact h1

/-- Main characterization of the item output: starting from a state
whose lines are the present items of its considered ids, none of them
old, the loop ends with item lines equal to the present items of the
longest considered prefix containing no too-old id. -/
theorem pullLoop_lines_char (env : Env) (bs : Nat) (maxItems : Option Nat)
    (cutoff : Option Int) :
    ∀ fuel cid st,
      st.itemLines = st.considered.filterMap env.fetchItem →
      (∀ i ∈ st.considered, oldAt env.fetchItem cutoff i = false) →
      (pullLoop env bs maxItems cutoff fuel cid st).itemLines =
        ((pullLoop env bs maxItems cutoff fuel cid st).considered.takeWhile
          (fun i => !oldAt env.fetchItem cutoff i)).filterMap env.fetchItem := by
  intro fuel
  induction fuel with
  | zero =>
    intro cid st h1 h2
    exact lines_char_of_inv env cutoff st h1 h2
  | succ fuel ih =>
    intro cid st h1 h2
    simp only [pullLoop]
    by_cases hL : reachedLimit maxItems st.itemsPulled = true
    · simp only [hL, if_true]
      exact lines_char_of_inv env cutoff st h1 h2
    · simp only [hL, if_false, Bool.false_eq_true]
      have hcons := batchStep_considered env bs maxItems cutoff cid st
      have hlines := batchStep_itemLines env bs maxItems cutoff cid st
      have hstop := batchStep_stopped env bs maxItems cutoff cid st
      by_cases hS : (batchStep env bs maxItems cutoff cid st).2 = true
      · simp only [hS, if_true]
        rw [hlines, hcons,
          takeWhile_append_all _ _ _ (fun i hi => by simp [h2 i hi]),
          List.filterMap_append, ← h1, batchEms_eq_ids]
      · have hSf : (batchStep env bs maxItems cutoff cid st).2 = false := by
          revert hS; cases (batchStep env bs maxItems cutoff cid st).2 <;> simp
        have hall : ∀ i ∈ batchIdsOf bs maxItems cid st.itemsPulled,
            oldAt env.fetchItem cutoff i = false := by
          intro i hi
          have := List.any_eq_false.mp (hstop.symm.trans hSf) i hi
          revert this; cases oldAt env.fetchItem cutoff i <;> simp
        have h1' : (batchStep env bs maxItems cutoff cid st).1.itemLines =
            (batchStep env bs maxItems cutoff cid st).1.considered.filterMap
              env.fetchItem := by
          rw [hlines, hcons, List.filterMap_append, h1, batchEms_eq_ids,
            takeWhile_all _ _ (fun i hi => by simp [hall i hi])]
        have h2' : ∀ i ∈ (batchStep env bs maxItems cutoff cid st).1.considered,
            oldAt env.fetchItem cutoff i = false := by
          rw [hcons]
          intro i hi
          rcases List.mem_append.mp hi with hi | hi
          · exact h2 i hi
          · exact hall i hi
        simp only [hS, Bool.false_eq_true, if_false]
        by_cases hN : nextCursor bs cid < 1
        · simp only [hN, if_true]
          exact lines_char_of_inv env cutoff _ h1' h2'
        · simp only [hN, if_false]
          by_cases hL' : reachedLimit maxItems
              (batchStep env bs maxItems cutoff cid st).1.itemsPulled = true
          · simp only [hL', if_true]
            exact lines_char_of_inv env cutoff _ h1' h2'
          · simp only [hL', Bool.false_eq_true, if_false]
            exact ih (nextCursor bs cid) _ h1' h2'

/-! ### Arithmetic views of the cursor -/

theorem batchIdsOf_none (bs cid pulled : Nat) :
    batchIdsOf bs none cid pulled = descRange cid (cid - bs) := by
  simp only [batchIdsOf]
  congr 1
  omega

theorem batchIdsOf_some (bs K cid pulled : Nat) :
    batchIdsOf bs (some K) cid pulled =
      descRange cid (cid - min bs (K - pulled)) := by
  simp only [batchIdsOf]
  congr 1
  omega

theorem nextCursor_eq (bs cid : Nat) : nextCursor bs cid = cid - bs := by
  unfold nextCursor
  omega

theorem reachedLimit_some (m pulled : Nat) :
    reachedLimit (some m) pulled = decide (m ≤ pulled) := rfl

theorem reachedLimit_none (pulled : Nat) :
    reachedLimit none pulled = false := rfl

/-! ### Contiguity of the considered ids (no item budget) -/

/-- With no item budget, the considered ids stay a contiguous
descending range starting at `M`, whatever ends the run. -/
theorem pullLoop_considered_range (env : Env) (bs : Nat) (cutoff : Option Int)
    (M : Nat) :
    ∀ fuel cid st, cid ≤ M → st.considered = descRange M cid →
      ∃ s, s ≤ M ∧
        (pullLoop env bs none cutoff fuel cid st).considered = descRange M s := by
  intro fuel
  induction fuel with
  | zero => exact fun cid st hcid hst => ⟨cid, hcid, hst⟩
  | succ fuel ih =>
    intro cid st hcid hst
    simp only [pullLoop, reachedLimit_none, Bool.false_eq_true, if_false]
    have hnew : (batchStep env bs none cutoff cid st).1.considered =
        descRange M (cid - bs) := by
      rw [batchStep_considered, hst, batchIdsOf_none,
        descRange_append (by omega) hcid]
    by_cases hS : (batchStep env bs none cutoff cid st).2 = true
    · exact ⟨cid - bs, by omega, by simp only [hS, if_true]; exact hnew⟩
    · simp only [hS, Bool.false_eq_true, if_false]
      by_cases hN : nextCursor bs cid < 1
      · exact ⟨cid - bs, by omega, by simp only [hN, if_true]; exact hnew⟩
      · simp only [hN, if_false, reachedLimit_none, Bool.false_eq_true]
        have := ih (nextCursor bs cid) (batchStep env bs none cutoff cid st).1
          (by rw [nextCursor_eq]; omega) (by rw [nextCursor_eq]; exact hnew)
        exact this

/-! ### All-present batches (no cutoff) -/

/-- For an id-consistent oracle, the items fetched from an all-present
id list carry exactly those ids, in order. -/
theorem filterMap_present_ids (fetch : Nat → Option Item)
    (hid : ∀ i it, fetch i = some it → it.id = i) :
    ∀ B : List Nat, (∀ i ∈ B, (fetch i).isSome) →
      (B.filterMap fetch).map Item.id = B ∧
        (B.filterMap fetch).length = B.length
  | [], _ => ⟨rfl, rfl⟩
  | i :: B, h => by
    obtain ⟨it, hit⟩ :=
      Option.isSome_iff_exists.mp (h i (List.mem_cons_self i B))
    have ih := filterMap_present_ids fetch hid B
      (fun j hj => h j (List.mem_cons_of_mem i hj))
    simp [List.filterMap_cons, hit, hid i it hit, ih.1, ih.2]

/-- With no cutoff configured, a batch emits every present item. -/
theorem batchEms_no_cutoff (env : Env) (bs : Nat) (maxItems : Option Nat)
    (cid pulled : Nat) :
    batchEms env bs maxItems none cid pulled =
      (batchIdsOf bs maxItems cid pulled).filterMap env.fetchItem := by
  rw [batchEms_eq_ids]
  congr 1
  apply takeWhile_all
  intro i _
  simp [oldAt, pairOld_no_cutoff]

/-- With no cutoff configured, the stop flag never fires. -/
theorem batchStep_stopped_none (env : Env) (bs : Nat) (maxItems : Option Nat)
    (cid : Nat) (st : LoopState) :
    (batchStep env bs maxItems none cid st).2 = false := by
  rw [batchStep_stopped]
  apply List.any_eq_false.mpr
  intro i _
  simp [oldAt, pairOld_no_cutoff]

/-! ### Completeness of the item budget over an all-present id space -/

/-- With no cutoff, an item budget `K`, an id-consistent oracle with
every id in `[1, M]` present, and enough ids left
(`K - items_pulled ≤ current_id`), the loop ends with exactly `K`
items pulled, `K` item lines, and strictly decreasing line ids. -/
theorem pullLoop_budget_complete (env : Env) (bs K M : Nat)
    (hbs : 1 ≤ bs)
    (hid : ∀ i it, env.fetchItem i = some it → it.id = i)
    (hp : ∀ i, 1 ≤ i → i ≤ M → (env.fetchItem i).isSome) :
    ∀ fuel cid st,
      cid ≤ fuel → 1 ≤ cid → cid ≤ M →
      st.itemsPulled ≤ K → K - st.itemsPulled ≤ cid →
      st.itemLines.length = st.itemsPulled →
      (st.itemLines.map Item.id).Pairwise (fun a b => b < a) →
      (∀ j ∈ st.itemLines.map Item.id, cid < j) →
      (pullLoop env bs (some K) none fuel cid st).itemsPulled = K ∧
        (pullLoop env bs (some K) none fuel cid st).itemLines.length = K ∧
        ((pullLoop env bs (some K) none fuel cid st).itemLines.map
          Item.id).Pairwise (fun a b => b < a) := by
  intro fuel
  induction fuel with
  | zero => intro cid st hf h1 _ _ _ _ _ _; omega
  | succ fuel ih =>
    intro cid st hf hcid1 hcidM hpl hrem hlen hpw hgt
    simp only [pullLoop]
    by_cases hL : reachedLimit (some K) st.itemsPulled = true
    · have hKle : K ≤ st.itemsPulled := by
        rw [reachedLimit_some] at hL; exact of_decide_eq_true hL
      have hKeq : st.itemsPulled = K := le_antisymm hpl hKle
      simp only [hL, if_true]
      exact ⟨hKeq, hlen.trans hKeq, hpw⟩
    · have hKlt : st.itemsPulled < K := by
        rw [reachedLimit_some] at hL
        simp only [decide_eq_true_eq] at hL
        omega
      simp only [hL, Bool.false_eq_true, if_false]
      -- the batch and its emitted items
      have hB : batchIdsOf bs (some K) cid st.itemsPulled =
          descRange cid (cid - min bs (K - st.itemsPulled)) :=
        batchIdsOf_some bs K cid st.itemsPulled
      have hBpres : ∀ i ∈ batchIdsOf bs (some K) cid st.itemsPulled,
          (env.fetchItem i).isSome := by
        intro i hi
        rw [hB] at hi
        have := mem_descRange' hi
        exact hp i (by omega) (by omega)
      have hfm := filterMap_present_ids env.fetchItem hid
        (batchIdsOf bs (some K) cid st.itemsPulled) hBpres
      have hems := batchEms_no_cutoff env bs (some K) cid st.itemsPulled
      have hBlen : (batchIdsOf bs (some K) cid st.itemsPulled).length =
          min bs (K - st.itemsPulled) := by
        rw [hB, descRange_length]; omega
      have hstep1 := batchStep_pulled env bs (some K) none cid st
      have hstep2 := batchStep_itemLines env bs (some K) none cid st
      have hpulled' : (batchStep env bs (some K) none cid st).1.itemsPulled =
          st.itemsPulled + min bs (K - st.itemsPulled) := by
        rw [hstep1, hems, hfm.2, hBlen]
      have hlen' : (batchStep env bs (some K) none cid st).1.itemLines.length =
          (batchStep env bs (some K) none cid st).1.itemsPulled := by
        rw [hstep2, hpulled', List.length_append, hlen, hems, hfm.2, hBlen]
      have hids' : (batchStep env bs (some K) none cid st).1.itemLines.map
            Item.id =
          st.itemLines.map Item.id ++ batchIdsOf bs (some K) cid st.itemsPulled := by
        rw [hstep2, List.map_append, hems, hfm.1]
      have hpw' : ((batchStep env bs (some K) none cid st).1.itemLines.map
          Item.id).Pairwise (fun a b => b < a) := by
        rw [hids', List.pairwise_append]
        refine ⟨hpw, ?_, ?_⟩
        · rw [hB]; exact descRange_pairwise _ _
        · intro a ha b hb
          have hbm := mem_descRange' (hB ▸ hb)
          have := hgt a ha
          omega
      have hgt' : ∀ j ∈ (batchStep env bs (some K) none cid st).1.itemLines.map
          Item.id, cid - min bs (K - st.itemsPulled) < j := by
        rw [hids']
        intro j hj
        rcases List.mem_append.mp hj with hj | hj
        · have := hgt j hj; omega
        · have := mem_descRange' (hB ▸ hj); omega
      have hS := batchStep_stopped_none env bs (some K) cid st
      simp only [hS, Bool.false_eq_true, if_false]
      by_cases hcase : K - st.itemsPulled ≤ bs
      -- the batch fills the budget
      · have hKfin : (batchStep env bs (some K) none cid st).1.itemsPulled = K := by
          rw [hpulled']; omega
        by_cases hN : nextCursor bs cid < 1
        · simp only [hN, if_true]
          exact ⟨hKfin, hlen'.trans hKfin, hpw'⟩
        · have hL' : reachedLimit (some K)
              (batchStep env bs (some K) none cid st).1.itemsPulled = true := by
            rw [reachedLimit_some, hKfin]; simp
          simp only [hN, if_false, hL', if_true]
          exact ⟨hKfin, hlen'.trans hKfin, hpw'⟩
      -- the budget is not yet filled: recurse
      · have hmin : min bs (K - st.itemsPulled) = bs := by omega
        have hN : ¬ nextCursor bs cid < 1 := by
          rw [nextCursor_eq]; omega
        have hL' : reachedLimit (some K)
            (batchStep env bs (some K) none cid st).1.itemsPulled = false := by
          rw [reachedLimit_some, hpulled', hmin]
          simp only [decide_eq_false_iff_not]
          omega
        simp only [hN, if_false, hL', Bool.false_eq_true]
        refine ih (nextCursor bs cid) (batchStep env bs (some K) none cid st).1
          (by rw [nextCursor_eq]; omega) (by rw [nextCursor_eq]; omega)
          (by rw [nextCursor_eq]; omega)
          (by rw [hpulled', hmin]; omega) (by rw [hpulled', hmin, nextCursor_eq]; omega)
          hlen' hpw' ?_
        intro j hj
        have := hgt' j hj
        rw [nextCursor_eq]
        omega

/-! ### The engine never reads the dead/deleted flags -/

theorem pairOld_strip (cutoff : Option Int) (p : Nat × Option Item) :
    pairOld cutoff (stripPair p) = pairOld cutoff p := by
  rcases p with ⟨i, o⟩
  cases o <;> cases cutoff <;> rfl

theorem discover_strip (coll : List String) :
    ∀ its : List Item, discover coll (its.map stripFlags) = discover coll its := by
  intro its
  induction its generalizing coll with
  | nil => rfl
  | cons it rest ih =>
    have hby : (stripFlags it).by_ = it.by_ := rfl
    cases h : it.by_ with
    | none => simp [discover, hby, h, ih coll]
    | some name =>
      by_cases hmem : name ∈ coll
      · simp [discover, hby, h, hmem, ih coll]
      · simp [discover, hby, h, hmem, ih (coll ++ [name])]

theorem emsOf_strip (cutoff : Option Int) :
    ∀ pairs : List (Nat × Option Item),
      emsOf cutoff (pairs.map stripPair) = (emsOf cutoff pairs).map stripFlags := by
  intro pairs
  induction pairs with
  | nil => rfl
  | cons p rest ih =>
    by_cases hold : pairOld cutoff p = true
    · simp [emsOf, List.takeWhile_cons, pairOld_strip, hold]
    · have hold' : pairOld cutoff p = false := by
        revert hold; cases pairOld cutoff p <;> simp
      rcases p with ⟨i, o⟩
      cases o with
      | none =>
        simpa [emsOf, List.takeWhile_cons, pairOld_strip, hold', stripPair]
          using ih
      | some it =>
        have hps : pairOld cutoff (i, some (stripFlags it)) =
            pairOld cutoff (i, some it) := pairOld_strip cutoff (i, some it)
        simpa [emsOf, List.takeWhile_cons, hps, hold', stripPair] using ih

theorem any_pairOld_strip (cutoff : Option Int) :
    ∀ pairs : List (Nat × Option Item),
      (pairs.map stripPair).any (pairOld cutoff) = pairs.any (pairOld cutoff) := by
  intro pairs
  induction pairs with
  | nil => rfl
  | cons p rest ih => simp [List.any_cons, pairOld_strip, ih]

/-- One batch iteration of an engine whose item oracle differs only by
stripped flags produces the same state up to stripped item lines, and
the same stop flag. -/
theorem batchStep_strip (e1 e2 : Env) (bs : Nat) (maxItems : Option Nat)
    (cutoff : Option Int)
    (hu : e2.fetchUser = e1.fetchUser)
    (hf : ∀ i, e2.fetchItem i = (e1.fetchItem i).map stripFlags)
    (cid : Nat) (st : LoopState) :
    batchStep e2 bs maxItems cutoff cid (stripState st) =
      (stripState (batchStep e1 bs maxItems cutoff cid st).1,
        (batchStep e1 bs maxItems cutoff cid st).2) := by
  have hpairs : (batchIdsOf bs maxItems cid st.itemsPulled).map
        (fun i => (i, e2.fetchItem i)) =
      ((batchIdsOf bs maxItems cid st.itemsPulled).map
        (fun i => (i, e1.fetchItem i))).map stripPair := by
    rw [List.map_map]
    apply List.map_congr_left
    intro i _
    simp [stripPair, hf i]
  simp only [batchStep, stripState, processBatch_eq, hpairs, emsOf_strip,
    discover_strip, any_pairOld_strip, hu, List.length_map, List.map_append]

/-- The whole loop of the flag-stripped engine equals the original
loop with flags stripped from the item lines. -/
theorem pullLoop_strip (e1 e2 : Env) (bs : Nat) (maxItems : Option Nat)
    (cutoff : Option Int)
    (hu : e2.fetchUser = e1.fetchUser)
    (hf : ∀ i, e2.fetchItem i = (e1.fetchItem i).map stripFlags) :
    ∀ fuel cid st,
      pullLoop e2 bs maxItems cutoff fuel cid (stripState st) =
        stripState (pullLoop e1 bs maxItems cutoff fuel cid st) := by
  intro fuel
  induction fuel with
  | zero => intro cid st; rfl
  | succ fuel ih =>
    intro cid st
    have hstep := batchStep_strip e1 e2 bs maxItems cutoff hu hf cid st
    have hpulled : (stripState st).itemsPulled = st.itemsPulled := rfl
    simp only [pullLoop, hpulled, hstep]
    by_cases hL : reachedLimit maxItems st.itemsPulled = true
    · simp [hL]
    · simp only [hL, Bool.false_eq_true, if_false]
      by_cases hS : (batchStep e1 bs maxItems cutoff cid st).2 = true
      · simp [hS]
      · simp only [hS, Bool.false_eq_true, if_false]
        by_cases hN : nextCursor bs cid < 1
        · simp [hN]
        · have hpulled' : (stripState (batchStep e1 bs maxItems cutoff cid st).1).itemsPulled =
              (batchStep e1 bs maxItems cutoff cid st).1.itemsPulled := rfl
          simp only [hN, if_false, hpulled']
          by_cases hL' : reachedLimit maxItems
              (batchStep e1 bs maxItems cutoff cid st).1.itemsPulled = true
          · simp [hL']
          · simp only [hL', Bool.false_eq_true, if_false]
            exact ih (nextCursor bs cid) _

/-! ### Unfolding the run entry point -/

theorem pull_items_none (env : Env) (bs : Nat) (maxItems nMonths : Option Nat)
    (coll0 : List String) (f0 : Option (List Item)) (g0 : Option (List User))
    (h : env.maxId = none) :
    pull_items env bs maxItems nMonths coll0 f0 g0 =
      { itemsPulled := 0, itemFile := f0, userFile := g0,
        collected := coll0, considered := [], userAttempts := [] } := by
  simp [pull_items, h]

theorem pull_items_some (env : Env) (bs : Nat) (maxItems nMonths : Option Nat)
    (coll0 : List String) (f0 : Option (List Item)) (g0 : Option (List User))
    (M : Nat) (h : env.maxId = some M) :
    pull_items env bs maxItems nMonths coll0 f0 g0 =
      { itemsPulled := (pullLoop env bs maxItems (cutoffOf env.now nMonths) M M
          ⟨0, coll0, [], [], [], []⟩).itemsPulled,
        itemFile := some (pullLoop env bs maxItems (cutoffOf env.now nMonths) M M
          ⟨0, coll0, [], [], [], []⟩).itemLines,
        userFile := some (pullLoop env bs maxItems (cutoffOf env.now nMonths) M M
          ⟨0, coll0, [], [], [], []⟩).userLines,
        collected := (pullLoop env bs maxItems (cutoffOf env.now nMonths) M M
          ⟨0, coll0, [], [], [], []⟩).collected,
        considered := (pullLoop env bs maxItems (cutoffOf env.now nMonths) M M
          ⟨0, coll0, [], [], [], []⟩).considered,
        userAttempts := (pullLoop env bs maxItems (cutoffOf env.now nMonths) M M
          ⟨0, coll0, [], [], [], []⟩).userAttempts } := by
  simp [pull_items, h]

/-! ### Claim C3 -/

/-- C3 counterexample: on a bootstrap failure the claim says both
output files exist and are empty at the end of the run; in the code the
run returns before the files are created or truncated, so with no
pre-existing files they still do not exist afterwards. -/
theorem c3_counterexample :
    (pull_items envNoMax 100 none (some 6) [] none none).itemsPulled = 0 ∧
      (pull_items envNoMax 100 none (some 6) [] none none).itemFile = none ∧
      (pull_items envNoMax 100 none (some 6) [] none none).userFile = none := by
  refine ⟨rfl, rfl, rfl⟩

/-- C3 (amended): when obtaining the maximum item id fails,
`pull_items` returns 0 having emitted nothing, considered no id and
attempted no user fetch, and leaves both output destinations exactly
as they were — neither created nor truncated. -/
theorem c3_bootstrap_untouched (env : Env) (bs : Nat)
    (maxItems nMonths : Option Nat) (coll0 : List String)
    (f0 : Option (List Item)) (g0 : Option (List User))
    (h : env.maxId = none) :
    (pull_items env bs maxItems nMonths coll0 f0 g0).itemsPulled = 0 ∧
      (pull_items env bs maxItems nMonths coll0 f0 g0).itemFile = f0 ∧
      (pull_items env bs maxItems nMonths coll0 f0 g0).userFile = g0 ∧
      (pull_items env bs maxItems nMonths coll0 f0 g0).considered = [] ∧
      (pull_items env bs maxItems nMonths coll0 f0 g0).userAttempts = [] ∧
      (pull_items env bs maxItems nMonths coll0 f0 g0).collected = coll0 := by
  rw [pull_items_none env bs maxItems nMonths coll0 f0 g0 h]
  exact ⟨rfl, rfl, rfl, rfl, rfl, rfl⟩

/-- C3 witness: a bootstrap-failing run over a pre-existing, non-empty
item file leaves that file's old contents in place. -/
theorem c3_bootstrap_untouched_witness :
    (pull_items envNoMax 1 none none ["x"] (some [dummyItem]) none).itemsPulled = 0 ∧
      (pull_items envNoMax 1 none none ["x"] (some [dummyItem]) none).itemFile =
        some [dummyItem] ∧
      (pull_items envNoMax 1 none none ["x"] (some [dummyItem]) none).userFile = none ∧
      (pull_items envNoMax 1 none none ["x"] (some [dummyItem]) none).considered = [] ∧
      (pull_items envNoMax 1 none none ["x"] (some [dummyItem]) none).userAttempts = [] ∧
      (pull_items envNoMax 1 none none ["x"] (some [dummyItem]) none).collected = ["x"] :=
  c3_bootstrap_untouched envNoMax 1 none none ["x"] (some [dummyItem]) none rfl

/-! ### Claim C8 -/

/-- C8 counterexample: the claim says a timeout or connection error in
a single fetch is returned as absence by `get_item`/`get_user`; in the
code only `HTTPError` is caught, so those exceptions propagate. -/
theorem c8_counterexample :
    get_item HttpOutcome.timeout = Except.error "Timeout" ∧
      get_item HttpOutcome.connError = Except.error "ConnectionError" ∧
      get_user HttpOutcome.timeout = Except.error "Timeout" ∧
      get_item HttpOutcome.malformed = Except.error "JSONDecodeError" :=
  ⟨rfl, rfl, rfl, rfl⟩

/-- C8 (amended): `get_item`/`get_user` return `None` on HTTP error
statuses (including not-found) and on a `null` body, but timeouts,
connection errors and malformed bodies propagate as exceptions from
the client; the engine wrappers `pull_single_item`/`pull_single_user`
catch every exception, so a wrapped fetch yields an item only from a
successful round trip and no per-call failure is fatal to the run. -/
theorem c8_fetch_absence :
    (∀ resp : HttpOutcome Item, ∀ it, pull_single_item resp = some it →
      resp = HttpOutcome.ok (some it)) ∧
    (∀ resp : HttpOutcome User, ∀ u, pull_single_user resp = some u →
      resp = HttpOutcome.ok (some u)) ∧
    get_item HttpOutcome.httpError = Except.ok none ∧
    get_user HttpOutcome.httpError = Except.ok none ∧
    get_item (HttpOutcome.ok none) = Except.ok none ∧
    (∃ e, get_item HttpOutcome.timeout = Except.error e) ∧
    (∃ e, get_item HttpOutcome.connError = Except.error e) ∧
    (∃ e, get_item HttpOutcome.malformed = Except.error e) := by
  refine ⟨?_, ?_, rfl, rfl, rfl, ⟨_, rfl⟩, ⟨_, rfl⟩, ⟨_, rfl⟩⟩
  · intro resp it h
    cases resp with
    | ok body =>
      cases body with
      | none => exact absurd h (by simp [pull_single_item, get_item])
      | some x =>
        have hx : x = it := by simpa [pull_single_item, get_item] using h
        rw [hx]
    | httpError => exact absurd h (by simp [pull_single_item, get_item])
    | timeout => exact absurd h (by simp [pull_single_item, get_item])
    | connError => exact absurd h (by simp [pull_single_item, get_item])
    | malformed => exact absurd h (by simp [pull_single_item, get_item])
  · intro resp u h
    cases resp with
    | ok body =>
      cases body with
      | none => exact absurd h (by simp [pull_single_user, get_user])
      | some x =>
        have hx : x = u := by simpa [pull_single_user, get_user] using h
        rw [hx]
    | httpError => exact absurd h (by simp [pull_single_user, get_user])
    | timeout => exact absurd h (by simp [pull_single_user, get_user])
    | connError => exact absurd h (by simp [pull_single_user, get_user])
    | malformed => exact absurd h (by simp [pull_single_user, get_user])

/-- C8 witness: the wrapper judgement applied at a successful round
trip for a concrete item. -/
theorem c8_fetch_absence_witness :
    (HttpOutcome.ok (some dummyItem) : HttpOutcome Item) =
      HttpOutcome.ok (some dummyItem) :=
  c8_fetch_absence.1 (HttpOutcome.ok (some dummyItem)) dummyItem rfl

/-! ### Claim C1 -/

/-- C1 counterexample: with `batch_size = 3`, `max_items = 2`, max id
6 and exactly the two ids 4 and 3 present (both below the max id), the
run writes one line, not two: the first truncated batch is `[6, 5]`,
both absent, and the cursor then jumps to 3, skipping the present
id 4. -/
theorem c1_counterexample :
    (envSparse.fetchItem 4).isSome = true ∧
      (envSparse.fetchItem 3).isSome = true ∧
      envSparse.maxId = some 6 ∧
      (pull_items envSparse 3 (some 2) none [] (some []) (some [])).itemsPulled = 1 ∧
      (pull_items envSparse 3 (some 2) none [] (some []) (some [])).itemFile =
        some [mkItem 3] := by
  decide

/-- C1 (amended): with `max_items = K`, no cutoff, `batch_size ≥ 1`,
an id-consistent oracle and every id in `[1, maxId]` present (and
`K ≤ maxId`), the run terminates having written exactly `K` item
lines whose ids are strictly decreasing, hence pairwise distinct. -/
theorem c1_budget_exact (env : Env) (bs K M : Nat) (coll0 : List String)
    (f0 : Option (List Item)) (g0 : Option (List User))
    (hM : env.maxId = some M) (hbs : 1 ≤ bs) (hKM : K ≤ M)
    (hid : ∀ i it, env.fetchItem i = some it → it.id = i)
    (hp : ∀ i, 1 ≤ i → i ≤ M → (env.fetchItem i).isSome = true) :
    (pull_items env bs (some K) none coll0 f0 g0).itemsPulled = K ∧
      (pull_items env bs (some K) none coll0 f0 g0).itemFile.isSome = true ∧
      ((pull_items env bs (some K) none coll0 f0 g0).itemFile.getD []).length = K ∧
      (((pull_items env bs (some K) none coll0 f0 g0).itemFile.getD []).map
        Item.id).Pairwise (fun a b => b < a) ∧
      (((pull_items env bs (some K) none coll0 f0 g0).itemFile.getD []).map
        Item.id).Nodup := by
  rw [pull_items_some env bs (some K) none coll0 f0 g0 M hM]
  have hco : cutoffOf env.now none = none := rfl
  rw [hco]
  rcases Nat.eq_zero_or_pos M with hM0 | hM1
  · subst hM0
    have hK0 : K = 0 := Nat.le_zero.mp hKM
    subst hK0
    exact ⟨rfl, rfl, rfl, List.Pairwise.nil, List.Pairwise.nil⟩
  · obtain ⟨h1, h2, h3⟩ := pullLoop_budget_complete env bs K M hbs hid
      (fun i hi1 hi2 => hp i hi1 hi2) M M ⟨0, coll0, [], [], [], []⟩
      (Nat.le_refl M) hM1 (Nat.le_refl M) (Nat.zero_le K) (by omega) rfl
      List.Pairwise.nil (by intro j hj; cases hj)
    exact ⟨h1, rfl, h2, h3, h3.imp (fun h => ne_of_gt h)⟩

/-- C1 witness: batch size 2, budget 3, max id 5, all ids present —
exactly three lines with strictly decreasing ids. -/
theorem c1_budget_exact_witness :
    (pull_items envDense 2 (some 3) none [] (some []) (some [])).itemsPulled = 3 ∧
      (pull_items envDense 2 (some 3) none [] (some []) (some [])).itemFile.isSome
        = true ∧
      ((pull_items envDense 2 (some 3) none [] (some []) (some [])).itemFile.getD
        []).length = 3 ∧
      (((pull_items envDense 2 (some 3) none [] (some []) (some [])).itemFile.getD
        []).map Item.id).Pairwise (fun a b => b < a) ∧
      (((pull_items envDense 2 (some 3) none [] (some []) (some [])).itemFile.getD
        []).map Item.id).Nodup :=
  c1_budget_exact envDense 2 3 5 [] (some []) (some []) rfl (by decide) (by decide)
    (fun i it h => by injection h with h2; rw [← h2]; rfl)
    (fun i _ _ => rfl)

/-! ### Claim C2 -/

/-- C2: with a cutoff configured and no item budget, the item output
is exactly the present items of the considered prefix before the first
considered id whose item is older than the cutoff — so the first such
item is not emitted and nothing after it is — and every emitted item
either lacks a time or has time at least the cutoff. -/
theorem c2_cutoff_stop (env : Env) (bs m : Nat) (coll0 : List String)
    (f0 : Option (List Item)) (g0 : Option (List User)) (M : Nat)
    (hM : env.maxId = some M) :
    (pull_items env bs none (some m) coll0 f0 g0).itemFile =
      some (((pull_items env bs none (some m) coll0 f0 g0).considered.takeWhile
        (fun i => !oldAt env.fetchItem (cutoffOf env.now (some m)) i)).filterMap
          env.fetchItem) ∧
    ∀ l, (pull_items env bs none (some m) coll0 f0 g0).itemFile = some l →
      ∀ it ∈ l, ∀ t, it.time = some t →
        env.now - (m : Int) * 30 * 86400 ≤ t := by
  have hchar := pullLoop_lines_char env bs none (cutoffOf env.now (some m)) M M
    ⟨0, coll0, [], [], [], []⟩ rfl (by intro i hi; cases hi)
  rw [pull_items_some env bs none (some m) coll0 f0 g0 M hM]
  refine ⟨congrArg some hchar, ?_⟩
  intro l hl it hit t ht
  have hl' := Option.some.inj hl
  rw [← hl', hchar] at hit
  obtain ⟨i, hiTW, hfi⟩ := List.mem_filterMap.mp hit
  have hpi := List.mem_takeWhile_imp hiTW
  have hfalse : oldAt env.fetchItem (cutoffOf env.now (some m)) i = false := by
    revert hpi
    cases oldAt env.fetchItem (cutoffOf env.now (some m)) i <;> simp
  have hco : cutoffOf env.now (some m) =
      some (env.now - (m : Int) * 30 * 86400) := rfl
  rw [oldAt, hco, hfi] at hfalse
  simp only [pairOld, ht, decide_eq_false_iff_not, not_lt] at hfalse
  exact hfalse

/-- C2 witness: concrete cutoff run (times 150, 120, 50, 200 against
cutoff 100) — the characterization instantiated. -/
theorem c2_cutoff_stop_witness :
    (pull_items envTimes 2 none (some 1) [] (some []) (some [])).itemFile =
      some (((pull_items envTimes 2 none (some 1) [] (some [])
        (some [])).considered.takeWhile
        (fun i => !oldAt envTimes.fetchItem (cutoffOf envTimes.now (some 1)) i)).filterMap
          envTimes.fetchItem) :=
  (c2_cutoff_stop envTimes 2 1 [] (some []) (some []) 4 rfl).1

/-! ### Claim C5 -/

/-- C5 counterexample: with `batch_size = 2` and `max_items = 1` over
an all-absent id space with max id 10, the considered ids are
`[10, 8, 6, 4, 2]` — id 9 is inside the traversed range yet never
considered, so the considered sequence is not contiguous. -/
theorem c5_counterexample :
    (pull_items envAbsent 2 (some 1) none [] (some []) (some [])).considered =
      [10, 8, 6, 4, 2] ∧
      (pull_items envAbsent 2 (some 1) none [] (some []) (some [])).considered.count
        9 = 0 ∧
      (pull_items envAbsent 2 (some 1) none [] (some []) (some [])).considered.count
        10 = 1 := by
  decide

/-- C5 (amended): with no item budget, the considered ids form a
contiguous descending range starting at the initial max id and
decreasing by one per id considered, every considered id is at least
1, and id 0 is never fetched. -/
theorem c5_contiguous_no_budget (env : Env) (bs : Nat) (nMonths : Option Nat)
    (coll0 : List String) (f0 : Option (List Item)) (g0 : Option (List User))
    (M : Nat) (hM : env.maxId = some M) :
    (pull_items env bs none nMonths coll0 f0 g0).considered =
      descRange M
        (M - (pull_items env bs none nMonths coll0 f0 g0).considered.length) ∧
    ∀ i ∈ (pull_items env bs none nMonths coll0 f0 g0).considered, 1 ≤ i := by
  rw [pull_items_some env bs none nMonths coll0 f0 g0 M hM]
  obtain ⟨s, hs, hcons⟩ := pullLoop_considered_range env bs
    (cutoffOf env.now nMonths) M M M ⟨0, coll0, [], [], [], []⟩ (Nat.le_refl M)
    (by simp [descRange, Nat.sub_self, descFrom])
  constructor
  · rw [hcons, descRange_length]
    have : M - (M - s) = s := by omega
    rw [this]
  · intro i hi
    rw [hcons] at hi
    have := mem_descRange' hi
    omega

/-- C5 witness: no budget over the all-absent world — the full
contiguous range `[10, ..., 1]` is considered. -/
theorem c5_contiguous_no_budget_witness :
    (pull_items envAbsent 3 none none [] (some []) (some [])).considered =
      descRange 10
        (10 - (pull_items envAbsent 3 none none [] (some [])
          (some [])).considered.length) ∧
      (1 : Nat) ≤ 10 :=
  ⟨(c5_contiguous_no_budget envAbsent 3 none [] (some []) (some []) 10 rfl).1,
    (c5_contiguous_no_budget envAbsent 3 none [] (some []) (some []) 10 rfl).2 10
      (by decide)⟩

/-! ### Claim C6 -/

/-- C6: in any run that obtains a max id, each username appears at
most once in the user output, even when several emitted items share an
author (the user oracle is id-consistent: a profile fetched for a
name carries that name). -/
theorem c6_user_dedup (env : Env) (bs : Nat) (maxItems nMonths : Option Nat)
    (coll0 : List String) (f0 : Option (List Item)) (g0 : Option (List User))
    (M : Nat) (hM : env.maxId = some M)
    (hu : ∀ n u, env.fetchUser n = some u → u.id = n) :
    ∀ l, (pull_items env bs maxItems nMonths coll0 f0 g0).userFile = some l →
      (l.map User.id).Nodup := by
  intro l hl
  rw [pull_items_some env bs maxItems nMonths coll0 f0 g0 M hM] at hl
  have hl' := Option.some.inj hl
  have hinv := pullLoop_preserves env bs maxItems (cutoffOf env.now nMonths)
    (fun st => (st.userLines.map User.id).Nodup ∧
      ∀ u ∈ st.userLines, u.id ∈ st.collected)
    (fun cid st h =>
      step_user_nodup env bs maxItems (cutoffOf env.now nMonths) hu cid st h)
    M M ⟨0, coll0, [], [], [], []⟩
    ⟨List.Pairwise.nil, by intro u hu'; cases hu'⟩
  rw [← hl']
  exact hinv.1

/-- C6 witness: the alice world — item 1 by alice, her profile
present — yields a user file with the single name alice. -/
theorem c6_user_dedup_witness : (([aliceUser] : List User).map User.id).Nodup :=
  c6_user_dedup envAlice 1 none none [] (some []) (some []) 1 rfl
    (by
      intro n u h
      by_cases hn : n = "alice"
      · subst hn
        simp [envAlice] at h
        subst h
        rfl
      · simp [envAlice, hn] at h)
    [aliceUser] (by decide)

/-! ### Claim C7 -/

/-- C7 counterexample: `collected_usernames` lives on the engine
instance, not the run: a first run over the alice world emits alice's
profile, but a second run on the same instance (starting from the
first run's collected set) emits no user record, while a second run on
a fresh instance emits `some [aliceUser]` again. -/
theorem c7_counterexample :
    (pull_items envAlice 1 none none [] (some []) (some [])).userFile =
      some [aliceUser] ∧
    (pull_items envAlice 1 none none
      (pull_items envAlice 1 none none [] (some []) (some [])).collected
      (some []) (some [])).userFile = some [] := by
  decide

/-- C7 (amended): the cursor, emitted count and termination state are
created afresh by each `pull_items` call, but the username dedup set
is engine-instance state that persists across calls: a run extends the
collected set it starts with and never attempts a user fetch for a
name already in it, so a rerun on the same instance does not re-emit
previously collected users. -/
theorem c7_dedup_persists (env : Env) (bs : Nat) (maxItems nMonths : Option Nat)
    (coll0 : List String) (f0 : Option (List Item)) (g0 : Option (List User)) :
    (∃ t, (pull_items env bs maxItems nMonths coll0 f0 g0).collected =
      coll0 ++ t) ∧
    ∀ n ∈ (pull_items env bs maxItems nMonths coll0 f0 g0).userAttempts,
      n ∉ coll0 := by
  cases hM : env.maxId with
  | none =>
    rw [pull_items_none env bs maxItems nMonths coll0 f0 g0 hM]
    exact ⟨⟨[], by simp⟩, by intro n hn; cases hn⟩
  | some M =>
    rw [pull_items_some env bs maxItems nMonths coll0 f0 g0 M hM]
    exact pullLoop_preserves env bs maxItems (cutoffOf env.now nMonths)
      (fun st => (∃ t, st.collected = coll0 ++ t) ∧
        ∀ n ∈ st.userAttempts, n ∉ coll0)
      (fun cid st h =>
        step_collected_extends env bs maxItems (cutoffOf env.now nMonths)
          coll0 cid st h)
      M M ⟨0, coll0, [], [], [], []⟩
      ⟨⟨[], by simp⟩, by intro n hn; cases hn⟩

/-- C7 witness: a run starting with bob already collected never
attempts bob, and extends the collected set. -/
theorem c7_dedup_persists_witness :
    (∃ t, (pull_items envAlice 1 none none ["bob"] (some [])
      (some [])).collected = ["bob"] ++ t) ∧
    "alice" ∉ (["bob"] : List String) :=
  ⟨(c7_dedup_persists envAlice 1 none none ["bob"] (some []) (some [])).1,
    (c7_dedup_persists envAlice 1 none none ["bob"] (some []) (some [])).2
      "alice" (by decide)⟩

/-! ### Claim C9 -/

/-- C9 counterexample: items 2 and 1 are both by alice and her profile
fetch fails; the run emits both items but attempts the profile fetch
only once, and alice is in the dedup set at the end even though no
user record was written — the second emitted item does not trigger a
new fetch. -/
theorem c9_counterexample :
    (pull_items envAliceDown 1 none none [] (some []) (some [])).itemsPulled = 2 ∧
    (pull_items envAliceDown 1 none none [] (some []) (some [])).userAttempts =
      ["alice"] ∧
    (pull_items envAliceDown 1 none none [] (some []) (some [])).collected =
      ["alice"] ∧
    (pull_items envAliceDown 1 none none [] (some []) (some [])).userFile =
      some [] := by
  decide

/-- C9 (amended): an emitted item's author is added to the dedup set
at discovery, before and regardless of the profile fetch outcome; each
discovered name is fetched exactly once (the attempts are pairwise
distinct), every attempted name ends up in the dedup set even when the
fetch fails, and the user output is exactly the successful fetches of
the attempted names. -/
theorem c9_discovery_eager (env : Env) (bs : Nat) (maxItems nMonths : Option Nat)
    (coll0 : List String) (f0 : Option (List Item)) (g0 : Option (List User))
    (M : Nat) (hM : env.maxId = some M) :
    (pull_items env bs maxItems nMonths coll0 f0 g0).userAttempts.Nodup ∧
    (∀ n ∈ (pull_items env bs maxItems nMonths coll0 f0 g0).userAttempts,
      n ∈ (pull_items env bs maxItems nMonths coll0 f0 g0).collected) ∧
    (pull_items env bs maxItems nMonths coll0 f0 g0).userFile =
      some ((pull_items env bs maxItems nMonths coll0 f0
        g0).userAttempts.filterMap env.fetchUser) := by
  rw [pull_items_some env bs maxItems nMonths coll0 f0 g0 M hM]
  have hinv := pullLoop_preserves env bs maxItems (cutoffOf env.now nMonths)
    (fun st => st.userAttempts.Nodup ∧
      (∀ n ∈ st.userAttempts, n ∈ st.collected) ∧
      st.userLines = st.userAttempts.filterMap env.fetchUser)
    (fun cid st h =>
      step_attempts env bs maxItems (cutoffOf env.now nMonths) cid st h)
    M M ⟨0, coll0, [], [], [], []⟩
    ⟨List.Pairwise.nil, (by intro n hn; cases hn), rfl⟩
  exact ⟨hinv.1, hinv.2.1, congrArg some hinv.2.2⟩

/-- C9 witness: the failing-alice world — one attempt, no user line. -/
theorem c9_discovery_eager_witness :
    (pull_items envAliceDown 1 none none [] (some []) (some [])).userAttempts.Nodup ∧
    (pull_items envAliceDown 1 none none [] (some []) (some [])).userFile =
      some ((pull_items envAliceDown 1 none none [] (some [])
        (some [])).userAttempts.filterMap envAliceDown.fetchUser) :=
  ⟨(c9_discovery_eager envAliceDown 1 none none [] (some []) (some []) 2 rfl).1,
    (c9_discovery_eager envAliceDown 1 none none [] (some []) (some []) 2 rfl).2.2⟩

/-! ### Claim C10 -/

/-- C10: the engine applies no filtering on the dead/deleted flags:
running against an oracle that differs only by stripping those flags
yields the same emitted count, the same considered ids, the same user
output, attempts and collected set, and the same item lines up to the
stripped flags — so a dead or deleted item is emitted and counted like
any other, and only fetch absence or the time cutoff can suppress
emission. -/
theorem c10_flags_ignored (e1 e2 : Env) (bs : Nat)
    (maxItems nMonths : Option Nat) (coll0 : List String)
    (f0 : Option (List Item)) (g0 : Option (List User)) (M : Nat)
    (hM1 : e1.maxId = some M) (hM2 : e2.maxId = some M)
    (hnow : e2.now = e1.now) (hu : e2.fetchUser = e1.fetchUser)
    (hf : ∀ i, e2.fetchItem i = (e1.fetchItem i).map stripFlags) :
    (pull_items e2 bs maxItems nMonths coll0 f0 g0).itemsPulled =
      (pull_items e1 bs maxItems nMonths coll0 f0 g0).itemsPulled ∧
    (pull_items e2 bs maxItems nMonths coll0 f0 g0).considered =
      (pull_items e1 bs maxItems nMonths coll0 f0 g0).considered ∧
    (pull_items e2 bs maxItems nMonths coll0 f0 g0).userFile =
      (pull_items e1 bs maxItems nMonths coll0 f0 g0).userFile ∧
    (pull_items e2 bs maxItems nMonths coll0 f0 g0).userAttempts =
      (pull_items e1 bs maxItems nMonths coll0 f0 g0).userAttempts ∧
    (pull_items e2 bs maxItems nMonths coll0 f0 g0).collected =
      (pull_items e1 bs maxItems nMonths coll0 f0 g0).collected ∧
    (pull_items e2 bs maxItems nMonths coll0 f0 g0).itemFile =
      (pull_items e1 bs maxItems nMonths coll0 f0 g0).itemFile.map
        (List.map stripFlags) := by
  rw [pull_items_some e1 bs maxItems nMonths coll0 f0 g0 M hM1,
    pull_items_some e2 bs maxItems nMonths coll0 f0 g0 M hM2]
  have hcut : cutoffOf e2.now nMonths = cutoffOf e1.now nMonths := by rw [hnow]
  rw [hcut]
  have h2 : pullLoop e2 bs maxItems (cutoffOf e1.now nMonths) M M
      ⟨0, coll0, [], [], [], []⟩ =
      stripState (pullLoop e1 bs maxItems (cutoffOf e1.now nMonths) M M
        ⟨0, coll0, [], [], [], []⟩) :=
    pullLoop_strip e1 e2 bs maxItems (cutoffOf e1.now nMonths) hu hf M M
      ⟨0, coll0, [], [], [], []⟩
  rw [h2]
  exact ⟨rfl, rfl, rfl, rfl, rfl, rfl⟩

/-- C10 witness: the flagged world (item 2 dead and deleted) against
its stripped twin — same counts, same everything but the flags. -/
theorem c10_flags_ignored_witness :
    (pull_items envFlagged 2 none none [] (some []) (some [])).itemsPulled = 2 ∧
    (pull_items envFlagless 2 none none [] (some []) (some [])).itemsPulled =
      (pull_items envFlagged 2 none none [] (some []) (some [])).itemsPulled ∧
    (pull_items envFlagless 2 none none [] (some []) (some [])).itemFile =
      (pull_items envFlagged 2 none none [] (some []) (some [])).itemFile.map
        (List.map stripFlags) :=
  ⟨by decide,
    (c10_flags_ignored envFlagged envFlagless 2 none none [] (some []) (some [])
      2 rfl rfl rfl rfl (fun i => rfl)).1,
    (c10_flags_ignored envFlagged envFlagless 2 none none [] (some []) (some [])
      2 rfl rfl rfl rfl (fun i => rfl)).2.2.2.2.2⟩

/-! ### Claim C4 -/

/-- C4: evaluation of the engine at the spec's failing input — a
window `[1000, 999]` whose higher id 1000 is older than the cutoff
while 999 is within it.  The code processes the window in descending
id order and stops at 1000, so nothing is emitted: the in-range item
999 is suppressed, where the claim (and the spec's stated intent)
requires it to be emitted before the stop. -/
theorem c4_window_stop_eval :
    (pull_items envWindow 2 none (some 1) [] (some []) (some [])).itemsPulled = 0 ∧
    (pull_items envWindow 2 none (some 1) [] (some []) (some [])).itemFile =
      some [] ∧
    (pull_items envWindow 2 none (some 1) [] (some []) (some [])).considered =
      [1000, 999] ∧
    envWindow.fetchItem 999 = some { id := 999, time := some 150 } ∧
    cutoffOf envWindow.now (some 1) = some 100 := by
  decide

end HNPull
